import Mathlib

set_option maxRecDepth 10000
set_option maxHeartbeats 1000000

/-!
Verification of the blackjack round engine: the deterministic deck
(`fnv1a32`, `mulberry32`, Fisher–Yates shuffle), hand scoring
(`calculateBestTotal`, `calculatePoints`, `updateBalance`) from
`src/lib/game.ts`, and the hit / stand route handlers
(`/api/game/hit`, `/api/game/stand`) modelled as explicit state
transformers over a database state.

JavaScript numbers are IEEE binary64 doubles.  All arithmetic in the
engine stays on integer values; the only operation whose result can
exceed 2^53 (where doubles stop being exact) is the unguarded
multiplication in `fnv1a32`, which we model exactly with
`roundToDouble` (round to nearest, ties to even, at 53 significant
bits).  Everything else (Math.imul, shifts, xor, the `k / 2^32`
scaling and `Math.floor(rng() * (i+1))`) is exact in doubles for the
ranges that occur, so plain `Nat` arithmetic with explicit `% 2^32`
is a faithful translation.
-/

namespace Blackjack

/-! ## Card and deck types (`game.ts` lines 16–32, 79–111) -/

inductive Suit
  | S | H | D | C
deriving DecidableEq, Repr

inductive Rank
  | A | n2 | n3 | n4 | n5 | n6 | n7 | n8 | n9 | n10 | J | Q | K
deriving DecidableEq, Repr

abbrev CardCode := Rank × Suit

def SUITS : List Suit := [.S, .H, .D, .C]

def RANKS : List Rank :=
  [.A, .n2, .n3, .n4, .n5, .n6, .n7, .n8, .n9, .n10, .J, .Q, .K]

/-- `buildDeck` (`game.ts` 103–111): the ordered 52-card deck, ranks outer,
suits inner. -/
def buildDeck : List CardCode :=
  RANKS.flatMap (fun r => SUITS.map (fun s => (r, s)))

/-! ## Deterministic RNG (`game.ts` 156–207) -/

def M32 : Nat := 4294967296

def M53 : Nat := 9007199254740992

/-- Floor of the base-2 logarithm, by structural recursion on a fuel
argument so that kernel evaluation works; agrees with `Nat.log2` while
`fuel` bounds the bit length of `n`. -/
def log2Fuel : Nat → Nat → Nat
  | 0, _ => 0
  | fuel + 1, n => if n ≤ 1 then 0 else log2Fuel fuel (n / 2) + 1

/-- Round a nonnegative integer below 2^64 to the nearest IEEE binary64
value (round to nearest, ties to even).  Integers below 2^53 are exact.
This models the implicit rounding of the JavaScript double product in
`fnv1a32`, whose value can reach 2^57. -/
def roundToDouble (n : Nat) : Nat :=
  if n < M53 then n
  else
    let k := log2Fuel 64 n - 52
    let q := n / 2 ^ k
    let r := n % 2 ^ k
    let half := 2 ^ (k - 1)
    if r < half then q * 2 ^ k
    else if half < r then (q + 1) * 2 ^ k
    else if q % 2 = 0 then q * 2 ^ k else (q + 1) * 2 ^ k

/-- `fnv1a32` (`game.ts` 156–164).  The source computes
`h = (h >>> 0) * 0x01000193` as a plain double multiplication (no
`Math.imul`), so each product is rounded to 53 significant bits before
the next iteration reduces it mod 2^32; `h ^= str.charCodeAt(i)`
coerces `h` to 32 bits first, and the final `h >>> 0` reduces mod 2^32. -/
def fnv1a32 (str : String) : Nat :=
  (str.data.foldl
    (fun h c => roundToDouble (((h % M32) ^^^ c.toNat) * 0x01000193))
    0x811c9dc5) % M32

/-- `mulberry32` (`game.ts` 169–177), one step: given the 32-bit state,
return the new state and the 32-bit output word (the JS function divides
this word by 2^32 to get a float in `[0,1)`; the division is exact, so we
keep the integer numerator). -/
def mulberry32Next (t : Nat) : Nat × Nat :=
  let t1 := (t + 0x6d2b79f5) % M32
  let r1 := ((t1 ^^^ (t1 >>> 15)) * (t1 ||| 1)) % M32
  let r2 := r1 ^^^ ((r1 + ((r1 ^^^ (r1 >>> 7)) * (r1 ||| 61)) % M32) % M32)
  (t1, (r2 ^^^ (r2 >>> 14)) % M32)

/- Keep the elaborator from unfolding the generator body on symbolic
states (its `(t + c) % 2^32` pattern makes definitional unfolding
diverge); no proof below needs to look inside one generator step. -/
attribute [irreducible] mulberry32Next

/-- `createSeededRng` (`game.ts` 183–187): the initial Mulberry32 state,
`(fnv1a32(seed) ^ (nonce >>> 0)) >>> 0`. -/
def createSeededRngState (seed : String) (nonce : Nat) : Nat :=
  (fnv1a32 seed ^^^ (nonce % M32)) % M32

/-- Swap two positions of a list (the destructuring swap in
`shuffleInPlace`); identity if either index is out of range (in the
source both indices are always in range). -/
def listSwap {α : Type} (l : List α) (i j : Nat) : List α :=
  match l[i]?, l[j]? with
  | some a, some b => (l.set i b).set j a
  | _, _ => l

/-- `shuffleInPlace` (`game.ts` 192–198): Fisher–Yates loop for the
current index `i` counting down to 1.  The recursion argument is the
current index; at index `i`, `j = Math.floor(rng() * (i + 1))`, which is
exactly `k * (i + 1) / 2^32` for the 32-bit word `k` (the product
`k * (i + 1)` has at most 38 bits, so the double arithmetic is exact). -/
def shuffleLoop {α : Type} : Nat → List α → Nat → List α
  | _, arr, 0 => arr
  | t, arr, i + 1 =>
    let s := mulberry32Next t
    let j := s.2 * (i + 2) / M32
    shuffleLoop s.1 (listSwap arr (i + 1) j) i

/-- `createShuffledDeck` (`game.ts` 203–207). -/
def createShuffledDeck (seed : String) (nonce : Nat) : List CardCode :=
  shuffleLoop (createSeededRngState seed nonce) buildDeck (buildDeck.length - 1)

/- The proofs below treat the shuffled deck through permutation lemmas;
keep the elaborator from unfolding the 52-step shuffle on symbolic
seeds (proofs that do need the definition rewrite with its equation). -/
attribute [irreducible] createShuffledDeck

/-- `drawCard` (`game.ts` 213–222); the source throws on an empty deck,
modelled as `none`. -/
def drawCard : List CardCode → Option (CardCode × List CardCode)
  | [] => none
  | card :: rest => some (card, rest)

/-! ## Scoring (`game.ts` 231–296) -/

/-- `rankBaseValue` (`game.ts` 231–235). -/
def rankBaseValue : Rank → Nat
  | .A => 1
  | .J | .Q | .K => 10
  | .n2 => 2
  | .n3 => 3
  | .n4 => 4
  | .n5 => 5
  | .n6 => 6
  | .n7 => 7
  | .n8 => 8
  | .n9 => 9
  | .n10 => 10

structure BestTotal where
  total : Nat
  soft : Bool
deriving DecidableEq, Repr

/-- The first loop of `calculateBestTotal`: accumulate `(sum, aces)`,
counting every ace as 1 initially. -/
def handAcc (cards : List CardCode) : Nat × Nat :=
  cards.foldl
    (fun p c =>
      if c.1 = Rank.A then (p.1 + 1, p.2 + 1) else (p.1 + rankBaseValue c.1, p.2))
    (0, 0)

/-- The `while (aces > 0 && sum + 10 <= 21)` promotion loop of
`calculateBestTotal`, structural on the remaining ace count. -/
def promoteAces : Nat → Nat → Bool → BestTotal
  | sum, 0, soft => ⟨sum, soft⟩
  | sum, aces + 1, soft =>
    if sum + 10 ≤ 21 then promoteAces (sum + 10) aces true else ⟨sum, soft⟩

/-- `calculateBestTotal` (`game.ts` 241–267). -/
def calculateBestTotal (cards : List CardCode) : BestTotal :=
  promoteAces (handAcc cards).1 (handAcc cards).2 false

/-- `calculatePoints` (`game.ts` 275–280).  For the integer totals that
occur (`0 < total < 21`), `Math.floor((total / 21) * 100)` in doubles
equals the exact rational floor: the exact value is never within 1/21 of
an integer from below, far outside double rounding error. -/
def calculatePoints (total : Int) : Int :=
  if total > 21 then 0
  else if total = 21 then 100
  else if total > 0 then Int.floor ((total : ℚ) / 21 * 100)
  else 0

/-- `isBust` (`game.ts` 285–287); totals in the engine are naturals. -/
def isBust (total : Nat) : Bool := total > 21

/-- `updateBalance` (`game.ts` 293–296). -/
def updateBalance (balance points : Int) : Int :=
  if points > 0 then balance + points else balance

/-! ## Round state enums and mapping helpers (`game.ts` 38–45, 389–413) -/

inductive RoundState
  | Idle | Playing | Bust | Finished
deriving DecidableEq, Repr

inductive PrismaRoundState
  | IDLE | PLAYING | BUST | FINISHED
deriving DecidableEq, Repr

def toPrismaRoundState : RoundState → PrismaRoundState
  | .Idle => .IDLE
  | .Playing => .PLAYING
  | .Bust => .BUST
  | .Finished => .FINISHED

def fromPrismaRoundState : PrismaRoundState → RoundState
  | .IDLE => .Idle
  | .PLAYING => .Playing
  | .BUST => .Bust
  | .FINISHED => .Finished

/-! ## Persistent state: round, wallet, audit log

The rows the route handlers read and write, with timestamps as plain
naturals supplied by the caller (`Date.now()` / `new Date()`). -/

structure RoundLog where
  roundId : String
  action : String
  card : Option CardCode
  nonce : Option Nat
  totalAfter : Option Nat
  createdAt : Nat
deriving DecidableEq, Repr

structure GameRound where
  id : String
  state : PrismaRoundState
  seed : String
  nonce : Nat
  hand : List CardCode
  total : Nat
  points : Int
  finishedAt : Option Nat
  updatedAt : Nat
deriving DecidableEq, Repr

/-- The per-user database slice the game handlers touch: the round row,
the wallet balance, and the append-only audit log. -/
structure Db where
  round : GameRound
  walletBalance : Int
  logs : List RoundLog
deriving DecidableEq, Repr

/-! ## Hit handler (`POST /api/game/hit`, `src/unnamed/part_001`) -/

/-- One probe of the scan loops in the hit handler: the card at index
`i` when it exists and is not already in hand. -/
def scanProbe (deck already : List CardCode) (i : Nat) :
    Option (CardCode × Nat) :=
  match deck[i]? with
  | some c => if c ∈ already then none else some (c, i)
  | none => none

/-- The forward scan of the hit handler (`for (let i = nextIndex; ...)`):
first index `i ≥ start` whose deck card is not already in hand, together
with that card. -/
def scanFrom (deck already : List CardCode) (start : Nat) :
    Option (CardCode × Nat) :=
  (List.range' start (deck.length - start)).findSome? (scanProbe deck already)

/-- The hit handler's fallback when the candidate at `nextIndex` is
unusable: scan forward from `nextIndex`, then from the deck's start. -/
def pickFallback (deck already : List CardCode) (nextIndex : Nat) :
    Option (CardCode × Nat) :=
  match scanFrom deck already nextIndex with
  | some res => some res
  | none => scanFrom deck already 0

/-- Candidate selection of the hit handler (lines 145–169): take
`baseDeck[nextIndex]` if it exists and is unused; otherwise the scans. -/
def pickNextCard (deck already : List CardCode) (nextIndex : Nat) :
    Option (CardCode × Nat) :=
  match deck[nextIndex]? with
  | some c => if c ∈ already then pickFallback deck already nextIndex
              else some (c, nextIndex)
  | none => pickFallback deck already nextIndex

inductive HitOutcome
  | conflict (snapshot : GameRound)
  | deckExhausted
  | ok (card : CardCode)
deriving DecidableEq, Repr

/-- The database state after a successful hit dealing `nextCard`
(route lines 178–214): append the card, recompute the total, bump the
nonce, move to `BUST` when over 21 (freezing `points = 0` and stamping
`finishedAt`), and append the audit log row. -/
def hitSuccessDb (db : Db) (nextCard : CardCode) (now : Nat) : Db :=
  let round := db.round
  let newHand := round.hand ++ [nextCard]
  let total := (calculateBestTotal newHand).total
  let didBust := isBust total
  let nextNonce := round.nonce + 1
  let updated : GameRound :=
    { round with
      hand := newHand
      total := total
      nonce := nextNonce
      state := if didBust then toPrismaRoundState .Bust
               else toPrismaRoundState .Playing
      points := if didBust then 0 else round.points
      finishedAt := if didBust then some now else none
      updatedAt := now }
  let log : RoundLog :=
    { roundId := round.id
      action := if didBust then "bust" else "hit"
      card := some nextCard
      nonce := some nextNonce
      totalAfter := some total
      createdAt := now }
  { round := updated, walletBalance := db.walletBalance,
    logs := db.logs ++ [log] }

/-- The hit handler (lines 103–214) after authentication and row lookup:
409 with the current snapshot when the round is not `PLAYING` or a
supplied `expectedNonce` mismatches; 410 when no unused card exists;
otherwise the successful update `hitSuccessDb`. -/
def hitRequest (db : Db) (expectedNonce : Option Nat) (now : Nat) :
    Db × HitOutcome :=
  let round := db.round
  if round.state ≠ .PLAYING then (db, .conflict round)
  else if expectedNonce.any (fun e => e != round.nonce) then (db, .conflict round)
  else
    let baseDeck := createShuffledDeck round.seed 0
    match pickNextCard baseDeck round.hand round.nonce with
    | none => (db, .deckExhausted)
    | some (nextCard, _) => (hitSuccessDb db nextCard now, .ok nextCard)

/-! ## Stand handler (`POST /api/game/stand`, `src/app/api/game/stand/route.ts`) -/

inductive StandOutcome
  | conflict (snapshot : GameRound)
  | finalized (snapshot : GameRound)
deriving DecidableEq, Repr

/-- The `$transaction` body of the stand handler (lines 130–190): a
conditional update guarded by `id` and `state == PLAYING`; on success it
finalizes the round with the `total` and `points` computed from the view
read before the transaction, appends the `stand` log row, and increments
the wallet when `points > 0`.  Returns the new state and whether this
attempt finalized the round. -/
def standTx (db : Db) (roundId : String) (viewNonce : Nat) (total : Nat)
    (points : Int) (now : Nat) : Db × Bool :=
  if db.round.id = roundId ∧ db.round.state = .PLAYING then
    let finalizedRound : GameRound :=
      { db.round with
        state := toPrismaRoundState .Finished
        total := total
        points := points
        finishedAt := some now
        updatedAt := now }
    let log : RoundLog :=
      { roundId := roundId
        action := "stand"
        card := none
        nonce := some viewNonce
        totalAfter := some total
        createdAt := now }
    let newBalance := if points > 0 then db.walletBalance + points
                      else db.walletBalance
    ({ round := finalizedRound, walletBalance := newBalance,
       logs := db.logs ++ [log] }, true)
  else (db, false)

/-- The stand handler (lines 59–206) after authentication and row lookup:
409 with the current snapshot when the round is not `PLAYING`; otherwise
compute total and points from the round just read and run the guarded
transaction; a lost race surfaces as a conflict carrying the
authoritative post-transaction snapshot. -/
def standRequest (db : Db) (now : Nat) : Db × StandOutcome :=
  if db.round.state ≠ .PLAYING then (db, .conflict db.round)
  else
    let total := (calculateBestTotal db.round.hand).total
    let points := calculatePoints (total : Int)
    let res := standTx db db.round.id db.round.nonce total points now
    (res.1, if res.2 then .finalized res.1.round else .conflict res.1.round)

/-! ## `initRound` (`game.ts` 425–477) -/

structure InitRoundResult where
  roundId : String
  state : RoundState
  seed : String
  nonce : Nat
  hand : List CardCode
  total : Nat
  deckLeft : List CardCode
  logs : List RoundLog
deriving DecidableEq, Repr

/-- The `start` audit record written by `initRound`. -/
def initStartLog (roundId : String) (nonce ts : Nat) : RoundLog :=
  { roundId := roundId, action := "start", card := none,
    nonce := some nonce, totalAfter := none, createdAt := ts }

/-- `initRound`: the round id and timestamps are nondeterministic in the
source (`generateRoundId()`, `Date.now()`) and are passed in here; the
deal-one draw throws only on an empty deck, modelled by `none`.  The
source's local bindings (`nonce`, `deck`, `hand`) are inlined. -/
def initRound (roundId seed : String) (nonce? : Option Nat) (dealOne : Bool)
    (ts : Nat) : Option InitRoundResult :=
  if dealOne then
    match drawCard (createShuffledDeck seed (nonce?.getD 0)) with
    | none => none
    | some (card, rest) =>
      some { roundId := roundId, state := .Playing, seed := seed,
             nonce := nonce?.getD 0 + 1, hand := [card],
             total := (calculateBestTotal [card]).total, deckLeft := rest,
             logs := [initStartLog roundId (nonce?.getD 0) ts,
                      { roundId := roundId, action := "hit", card := some card,
                        nonce := some (nonce?.getD 0 + 1),
                        totalAfter := some (calculateBestTotal [card]).total,
                        createdAt := ts }] }
  else
    some { roundId := roundId, state := .Playing, seed := seed,
           nonce := nonce?.getD 0, hand := [],
           total := (calculateBestTotal []).total,
           deckLeft := createShuffledDeck seed (nonce?.getD 0),
           logs := [initStartLog roundId (nonce?.getD 0) ts] }

/-! ## Derived views of the code used in the statements below -/

/-- The hand total with every ace counted as 1 (the minimal assignment);
`rankBaseValue` already maps aces to 1. -/
def handMinTotal (cards : List CardCode) : Nat :=
  (cards.map (fun c => rankBaseValue c.1)).sum

/-- Number of aces in the hand. -/
def handAceCount (cards : List CardCode) : Nat :=
  cards.countP (fun c => c.1 == Rank.A)

/-- The `(total, points)` pair the stand route computes from the round it
read before opening the transaction (route lines 124–127). -/
def standView (r : GameRound) : Nat × Int :=
  ((calculateBestTotal r.hand).total,
   calculatePoints (((calculateBestTotal r.hand).total : Nat) : Int))

/-- The round row as written by the stand route's conditional update
(route lines 132–141). -/
def standFinalRound (r : GameRound) (now : Nat) : GameRound :=
  { r with
    state := .FINISHED
    total := (standView r).1
    points := (standView r).2
    finishedAt := some now
    updatedAt := now }

/-- The database state after a successful stand transaction: finalized
round, wallet credited via `updateBalance`, `stand` log row appended. -/
def standSuccessDb (db : Db) (now : Nat) : Db :=
  { round := standFinalRound db.round now
    walletBalance := updateBalance db.walletBalance (standView db.round).2
    logs := db.logs ++
      [{ roundId := db.round.id, action := "stand", card := none,
         nonce := some db.round.nonce, totalAfter := some (standView db.round).1,
         createdAt := now }] }

/-- Reference FNV-1a-32, following the spec's words: offset basis
`0x811c9dc5`, per character XOR then multiply by the prime `0x01000193`,
with every arithmetic step wrapped to unsigned 32 bits.  Stated for
comparison with the source's `fnv1a32`. -/
def fnv1a32Reference (str : String) : Nat :=
  str.data.foldl (fun h c => ((h ^^^ c.toNat) * 0x01000193) % M32) 0x811c9dc5

/-! ## Concrete fixtures used by the witnesses -/

/-- A fresh `PLAYING` round with an empty hand on seed `"s1"`. -/
def hitDb0 : Db :=
  ⟨⟨"r0", .PLAYING, "s1", 0, [], 0, 0, none, 0⟩, 0, []⟩

/-- A `PLAYING` round about to stand on 20. -/
def raceDb : Db :=
  ⟨⟨"r4", .PLAYING, "s1", 2, [(Rank.n10, Suit.S), (Rank.J, Suit.H)], 20, 0,
    none, 4⟩, 10, []⟩

/-- A desynchronized `PLAYING` round whose hand already holds all 52
cards of its canonical deck. -/
def fullHandDb : Db :=
  ⟨⟨"r5", .PLAYING, "s1", 52, createShuffledDeck "s1" 0, 0, 0, none, 0⟩, 0, []⟩

/-! ## Permutation lemmas for the Fisher–Yates shuffle -/

theorem cons_set_perm {α : Type} (xs : List α) (k : Nat) (x a : α)
    (h : xs[k]? = some a) : List.Perm (a :: xs.set k x) (x :: xs) := by
  induction xs generalizing k with
  | nil => simp at h
  | cons y ys ih =>
    cases k with
    | zero =>
      have hy : y = a := by simpa using h
      subst hy
      exact List.Perm.swap x y ys
    | succ m =>
      have hm : ys[m]? = some a := by simpa using h
      show List.Perm (a :: y :: ys.set m x) (x :: y :: ys)
      exact (List.Perm.swap y a (ys.set m x)).trans
        (((ih m hm).cons y).trans (List.Perm.swap x y ys))

theorem set_set_swap_perm {α : Type} (l : List α) (i j : Nat) (a b : α)
    (hi : l[i]? = some a) (hj : l[j]? = some b) :
    List.Perm ((l.set i b).set j a) l := by
  induction l generalizing i j with
  | nil => simp at hi
  | cons x xs ih =>
    cases i with
    | zero =>
      have hx : x = a := by simpa using hi
      subst hx
      cases j with
      | zero =>
        have hb : x = b := by simpa using hj
        subst hb
        simp
      | succ m =>
        have hm : xs[m]? = some b := by simpa using hj
        show List.Perm (b :: xs.set m x) (x :: xs)
        exact cons_set_perm xs m x b hm
    | succ n =>
      have hn : xs[n]? = some a := by simpa using hi
      cases j with
      | zero =>
        have hb : x = b := by simpa using hj
        subst hb
        show List.Perm (a :: xs.set n x) (x :: xs)
        exact cons_set_perm xs n x a hn
      | succ m =>
        have hm : xs[m]? = some b := by simpa using hj
        show List.Perm (x :: (xs.set n b).set m a) (x :: xs)
        exact (ih n m hn hm).cons x

theorem listSwap_perm {α : Type} (l : List α) (i j : Nat) :
    List.Perm (listSwap l i j) l := by
  cases hi : l[i]? with
  | none => simp [listSwap, hi]
  | some a =>
    cases hj : l[j]? with
    | none => simp [listSwap, hi, hj]
    | some b =>
      simpa [listSwap, hi, hj] using set_set_swap_perm l i j a b hi hj

theorem shuffleLoop_perm {α : Type} :
    ∀ (n t : Nat) (arr : List α), List.Perm (shuffleLoop t arr n) arr := by
  intro n
  induction n with
  | zero => intro t arr; exact List.Perm.refl arr
  | succ i ih =>
    intro t arr
    rw [shuffleLoop]
    exact (ih _ _).trans (listSwap_perm arr (i + 1) _)

theorem createShuffledDeck_perm (seed : String) (nonce : Nat) :
    List.Perm (createShuffledDeck seed nonce) buildDeck := by
  rw [createShuffledDeck]
  exact shuffleLoop_perm _ _ _

theorem buildDeck_length : buildDeck.length = 52 := by decide

theorem buildDeck_nodup : buildDeck.Nodup := by decide

/-- C1: `createShuffledDeck(seed, nonce)` always returns 52 pairwise
distinct cards — exactly the 52 valid rank/suit codes of the ordered
deck — and is deterministic: equal inputs give the identical sequence. -/
theorem createShuffledDeck_spec (seed : String) (nonce : Nat) :
    (createShuffledDeck seed nonce).length = 52 ∧
    (createShuffledDeck seed nonce).Nodup ∧
    (∀ c : CardCode, c ∈ createShuffledDeck seed nonce ↔ c ∈ buildDeck) ∧
    (∀ (s : String) (n : Nat), s = seed → n = nonce →
      createShuffledDeck s n = createShuffledDeck seed nonce) := by
  have hp := createShuffledDeck_perm seed nonce
  refine ⟨hp.length_eq.trans buildDeck_length, hp.nodup_iff.mpr buildDeck_nodup,
    fun c => hp.mem_iff, ?_⟩
  rintro s n rfl rfl
  rfl

theorem createShuffledDeck_spec_witness :
    (createShuffledDeck "s1" 0).length = 52 ∧
    createShuffledDeck "s1" 0 = createShuffledDeck "s1" 0 :=
  ⟨(createShuffledDeck_spec "s1" 0).1,
   (createShuffledDeck_spec "s1" 0).2.2.2 "s1" 0 rfl rfl⟩

/-! ## Hand scoring: ace promotion is maximal-without-busting (C4) -/

theorem handAcc_general (cards : List CardCode) :
    ∀ p : Nat × Nat,
      cards.foldl
        (fun p c =>
          if c.1 = Rank.A then (p.1 + 1, p.2 + 1)
          else (p.1 + rankBaseValue c.1, p.2)) p
      = (p.1 + handMinTotal cards, p.2 + handAceCount cards) := by
  induction cards with
  | nil => intro p; simp [handMinTotal, handAceCount]
  | cons c cs ih =>
    intro p
    by_cases hA : c.1 = Rank.A
    · have hv : rankBaseValue Rank.A = 1 := by decide
      simp only [List.foldl_cons, if_pos hA, ih]
      simp [handMinTotal, handAceCount, hA, hv, List.countP_cons]
      omega
    · simp only [List.foldl_cons, if_neg hA, ih]
      simp [handMinTotal, handAceCount, List.countP_cons, hA]
      omega

theorem handAcc_eq (cards : List CardCode) :
    handAcc cards = (handMinTotal cards, handAceCount cards) := by
  have h := handAcc_general cards (0, 0)
  simpa [handAcc] using h

theorem promoteAces_spec (aces : Nat) : ∀ (sum : Nat) (soft : Bool),
    (∃ p, p ≤ aces ∧ (promoteAces sum aces soft).total = sum + 10 * p) ∧
    (sum ≤ 21 → (promoteAces sum aces soft).total ≤ 21) ∧
    (∀ p, p ≤ aces → sum + 10 * p ≤ 21 →
      sum + 10 * p ≤ (promoteAces sum aces soft).total) ∧
    (21 < sum → (promoteAces sum aces soft).total = sum) := by
  induction aces with
  | zero =>
    intro sum soft
    refine ⟨⟨0, Nat.le_refl 0, by simp [promoteAces]⟩, ?_, ?_, ?_⟩
    · intro h; simpa [promoteAces] using h
    · intro p hp hle
      have hp0 : p = 0 := Nat.le_zero.mp hp
      subst hp0
      simp [promoteAces]
    · intro _; simp [promoteAces]
  | succ a ih =>
    intro sum soft
    by_cases h : sum + 10 ≤ 21
    · obtain ⟨⟨p, hp, htot⟩, hle, hmax, _⟩ := ih (sum + 10) true
      have e : promoteAces sum (a + 1) soft = promoteAces (sum + 10) a true := by
        simp [promoteAces, h]
      rw [e]
      refine ⟨⟨p + 1, by omega, by omega⟩, fun _ => hle (by omega), ?_, by omega⟩
      intro q hq hqle
      cases q with
      | zero => omega
      | succ r =>
        have := hmax r (by omega) (by omega)
        omega
    · have e : promoteAces sum (a + 1) soft = ⟨sum, soft⟩ := by
        simp [promoteAces, h]
      rw [e]
      refine ⟨⟨0, by omega, by simp⟩, fun hs => by simpa using hs, ?_, fun _ => rfl⟩
      intro q hq hqle
      have hq0 : q = 0 := by omega
      subst hq0
      simp

/-- C4: `calculateBestTotal` returns an attainable ace-assignment total
(`minimal total + 10·p` with `p` aces counted as 11); whenever a
non-busting assignment exists (the all-ones total is ≤ 21) the result
does not bust and dominates every non-busting assignment; otherwise it
is the minimal total with every ace as 1. -/
theorem calculateBestTotal_spec (cards : List CardCode) :
    (∃ p, p ≤ handAceCount cards ∧
      (calculateBestTotal cards).total = handMinTotal cards + 10 * p) ∧
    (handMinTotal cards ≤ 21 → (calculateBestTotal cards).total ≤ 21) ∧
    (∀ p, p ≤ handAceCount cards → handMinTotal cards + 10 * p ≤ 21 →
      handMinTotal cards + 10 * p ≤ (calculateBestTotal cards).total) ∧
    (21 < handMinTotal cards →
      (calculateBestTotal cards).total = handMinTotal cards) := by
  have e : calculateBestTotal cards =
      promoteAces (handMinTotal cards) (handAceCount cards) false := by
    unfold calculateBestTotal
    rw [handAcc_eq]
  rw [e]
  exact promoteAces_spec (handAceCount cards) (handMinTotal cards) false

theorem calculateBestTotal_spec_witness :
    (calculateBestTotal
      [(Rank.A, Suit.S), (Rank.A, Suit.H), (Rank.n9, Suit.D)]).total ≤ 21 ∧
    handMinTotal [(Rank.A, Suit.S), (Rank.A, Suit.H), (Rank.n9, Suit.D)] + 10 * 1 ≤
      (calculateBestTotal
        [(Rank.A, Suit.S), (Rank.A, Suit.H), (Rank.n9, Suit.D)]).total :=
  ⟨(calculateBestTotal_spec _).2.1 (by decide),
   (calculateBestTotal_spec _).2.2.1 1 (by decide) (by decide)⟩

/-! ## Arcade points (C5) -/

/-- C5: the piecewise value of `calculatePoints`, its monotonicity on
`(0, 21]`, and the spec's sample values. -/
theorem calculatePoints_spec :
    (∀ t : Int,
      (21 < t → calculatePoints t = 0) ∧
      (t = 21 → calculatePoints t = 100) ∧
      (0 < t → t < 21 → calculatePoints t = Int.floor ((t : ℚ) / 21 * 100)) ∧
      (t = 0 → calculatePoints t = 0)) ∧
    (∀ a b : Int, 0 < a → a ≤ b → b ≤ 21 →
      calculatePoints a ≤ calculatePoints b) ∧
    calculatePoints 22 = 0 ∧ calculatePoints 21 = 100 ∧
    calculatePoints 18 = 85 ∧ calculatePoints 0 = 0 := by
  have hpiece : ∀ t : Int,
      (21 < t → calculatePoints t = 0) ∧
      (t = 21 → calculatePoints t = 100) ∧
      (0 < t → t < 21 → calculatePoints t = Int.floor ((t : ℚ) / 21 * 100)) ∧
      (t = 0 → calculatePoints t = 0) := by
    intro t
    refine ⟨fun h => ?_, fun h => ?_, fun h1 h2 => ?_, fun h => ?_⟩
    · simp [calculatePoints, h]
    · subst h; norm_num [calculatePoints]
    · rw [calculatePoints, if_neg (by omega), if_neg (by omega), if_pos h1]
    · subst h; norm_num [calculatePoints]
  refine ⟨hpiece, ?_, ?_, ?_, ?_, ?_⟩
  · intro a b ha hab hb
    by_cases hb21 : b = 21
    · subst hb21
      rw [(hpiece 21).2.1 rfl]
      by_cases ha21 : a = 21
      · subst ha21; rw [(hpiece 21).2.1 rfl]
      · have ha' : a < 21 := lt_of_le_of_ne hab ha21
        rw [(hpiece a).2.2.1 ha ha']
        have hle : (a : ℚ) / 21 * 100 ≤ 100 := by
          have : (a : ℚ) ≤ 21 := by exact_mod_cast hab
          nlinarith
        calc Int.floor ((a : ℚ) / 21 * 100) ≤ Int.floor ((100 : ℚ)) :=
              Int.floor_le_floor (by simpa using hle)
          _ = 100 := by norm_num
    · have hb' : b < 21 := lt_of_le_of_ne hb hb21
      have ha' : a < 21 := lt_of_le_of_lt hab hb'
      rw [(hpiece a).2.2.1 ha ha', (hpiece b).2.2.1 (lt_of_lt_of_le ha hab) hb']
      apply Int.floor_le_floor
      have : (a : ℚ) ≤ (b : ℚ) := by exact_mod_cast hab
      nlinarith
  · norm_num [calculatePoints]
  · norm_num [calculatePoints]
  · rw [(hpiece 18).2.2.1 (by norm_num) (by norm_num)]
    rw [show ((18 : Int) : ℚ) / 21 * 100 = 600 / 7 by norm_num]
    rw [Int.floor_eq_iff]
    constructor <;> norm_num
  · norm_num [calculatePoints]

theorem calculatePoints_spec_witness :
    calculatePoints 18 = Int.floor (((18 : Int) : ℚ) / 21 * 100) ∧
    calculatePoints 19 ≤ calculatePoints 20 :=
  ⟨(calculatePoints_spec.1 18).2.2.1 (by norm_num) (by norm_num),
   calculatePoints_spec.2.1 19 20 (by norm_num) (by norm_num) (by norm_num)⟩

/-! ## Stand finalization (C3) -/

theorem standRequest_playing (db : Db) (now : Nat)
    (h : db.round.state = .PLAYING) :
    standRequest db now =
      (standSuccessDb db now, .finalized (standFinalRound db.round now)) := by
  simp [standRequest, standTx, standSuccessDb, standFinalRound, standView,
    updateBalance, toPrismaRoundState, h]

/-- C3: standing on a `PLAYING` round finalizes it
(`state = FINISHED`), sets its points to
`calculatePoints(calculateBestTotal(hand).total)`, credits the wallet by
exactly those points iff they are positive (this is `updateBalance`),
and `updateBalance` never decreases any balance. -/
theorem stand_spec (db : Db) (now : Nat) (h : db.round.state = .PLAYING) :
    standRequest db now =
      (standSuccessDb db now, .finalized (standFinalRound db.round now)) ∧
    (standRequest db now).1.round.state = .FINISHED ∧
    (standRequest db now).1.round.points =
      calculatePoints ((calculateBestTotal db.round.hand).total : Int) ∧
    (standRequest db now).1.walletBalance =
      updateBalance db.walletBalance
        (calculatePoints ((calculateBestTotal db.round.hand).total : Int)) ∧
    (0 < calculatePoints ((calculateBestTotal db.round.hand).total : Int) →
      (standRequest db now).1.walletBalance =
        db.walletBalance +
          calculatePoints ((calculateBestTotal db.round.hand).total : Int)) ∧
    (calculatePoints ((calculateBestTotal db.round.hand).total : Int) ≤ 0 →
      (standRequest db now).1.walletBalance = db.walletBalance) ∧
    (∀ b p : Int, b ≤ updateBalance b p) := by
  have hm := standRequest_playing db now h
  have hb : ∀ b p : Int, b ≤ updateBalance b p := by
    intro b p
    unfold updateBalance
    split <;> omega
  refine ⟨hm, ?_, ?_, ?_, ?_, ?_, hb⟩
  · rw [hm]; rfl
  · rw [hm]; rfl
  · rw [hm]; rfl
  · intro hp
    rw [hm]
    show updateBalance db.walletBalance
      (calculatePoints ((calculateBestTotal db.round.hand).total : Int)) = _
    unfold updateBalance
    rw [if_pos hp]
  · intro hp
    rw [hm]
    show updateBalance db.walletBalance
      (calculatePoints ((calculateBestTotal db.round.hand).total : Int)) = _
    unfold updateBalance
    rw [if_neg (by omega)]

/-! ## Conflicts mutate nothing (C6) -/

/-- C6: `hit` and `stand` on a non-`PLAYING` round leave the database
(round, wallet, logs) untouched and answer with a conflict carrying the
current snapshot; a `hit` on a `PLAYING` round with a stale
`expectedNonce` likewise mutates nothing. -/
theorem conflict_spec (db : Db) (e : Option Nat) (now : Nat) :
    (db.round.state ≠ .PLAYING →
      hitRequest db e now = (db, .conflict db.round) ∧
      standRequest db now = (db, .conflict db.round)) ∧
    (∀ k : Nat, db.round.state = .PLAYING → k ≠ db.round.nonce →
      hitRequest db (some k) now = (db, .conflict db.round)) := by
  constructor
  · intro h
    exact ⟨by simp [hitRequest, h], by simp [standRequest, h]⟩
  · intro k hs hk
    simp [hitRequest, hs, hk]

theorem conflict_spec_witness :
    hitRequest
      ⟨⟨"r1", .BUST, "s1", 3, [(Rank.K, Suit.S), (Rank.Q, Suit.H), (Rank.n5, Suit.D)],
        25, 0, some 9, 9⟩, 40, []⟩ none 10 =
      (⟨⟨"r1", .BUST, "s1", 3, [(Rank.K, Suit.S), (Rank.Q, Suit.H), (Rank.n5, Suit.D)],
        25, 0, some 9, 9⟩, 40, []⟩,
       .conflict ⟨"r1", .BUST, "s1", 3,
        [(Rank.K, Suit.S), (Rank.Q, Suit.H), (Rank.n5, Suit.D)], 25, 0, some 9, 9⟩) ∧
    hitRequest
      ⟨⟨"r2", .PLAYING, "s1", 2, [(Rank.K, Suit.S), (Rank.Q, Suit.H)], 20, 0, none, 4⟩,
        0, []⟩ (some 7) 10 =
      (⟨⟨"r2", .PLAYING, "s1", 2, [(Rank.K, Suit.S), (Rank.Q, Suit.H)], 20, 0, none, 4⟩,
        0, []⟩,
       .conflict ⟨"r2", .PLAYING, "s1", 2, [(Rank.K, Suit.S), (Rank.Q, Suit.H)],
        20, 0, none, 4⟩) :=
  ⟨((conflict_spec _ none 10).1 (by decide)).1,
   (conflict_spec _ (some 7) 10).2 7 rfl (by decide)⟩

/-! ## Stand race: exactly one finalize and one credit (C9) -/

/-- C9: two stand attempts that both read the same `PLAYING` round (so
both carry the same precomputed `standView`) and then run their guarded
transactions yield exactly one finalization: the first transaction
commits and credits the wallet once via `updateBalance`; the second
changes nothing; a full second request after the first likewise changes
nothing and observes the authoritative finalized snapshot as a
conflict. -/
theorem stand_race_spec (db : Db) (now1 now2 : Nat)
    (h : db.round.state = .PLAYING) :
    standTx db db.round.id db.round.nonce (standView db.round).1
        (standView db.round).2 now1
      = (standSuccessDb db now1, true) ∧
    standTx (standSuccessDb db now1) db.round.id db.round.nonce
        (standView db.round).1 (standView db.round).2 now2
      = (standSuccessDb db now1, false) ∧
    (standSuccessDb db now1).walletBalance =
      updateBalance db.walletBalance (standView db.round).2 ∧
    (standSuccessDb db now1).round.state = .FINISHED ∧
    (standSuccessDb db now1).round.points = (standView db.round).2 ∧
    standRequest db now1 =
      (standSuccessDb db now1, .finalized (standSuccessDb db now1).round) ∧
    standRequest (standSuccessDb db now1) now2 =
      (standSuccessDb db now1, .conflict (standSuccessDb db now1).round) := by
  refine ⟨?_, ?_, rfl, rfl, rfl, standRequest_playing db now1 h, ?_⟩
  · simp [standTx, standSuccessDb, standFinalRound, standView, updateBalance,
      toPrismaRoundState, h]
  · simp [standTx, standSuccessDb, standFinalRound, toPrismaRoundState]
  · simp [standRequest, standSuccessDb, standFinalRound, toPrismaRoundState]

/-! ## Frame: what hit and stand never touch (C10) -/

/-- C10: every outcome of the hit handler preserves the round's `id` and
`seed` and the wallet balance; every outcome of the stand handler
preserves the round's `id`, `seed`, `nonce` and `hand` (a finalizing
stand changes only state, total, points and timestamps). -/
theorem frame_spec (db : Db) (e : Option Nat) (now : Nat) :
    (hitRequest db e now).1.round.id = db.round.id ∧
    (hitRequest db e now).1.round.seed = db.round.seed ∧
    (hitRequest db e now).1.walletBalance = db.walletBalance ∧
    (standRequest db now).1.round.id = db.round.id ∧
    (standRequest db now).1.round.seed = db.round.seed ∧
    (standRequest db now).1.round.nonce = db.round.nonce ∧
    (standRequest db now).1.round.hand = db.round.hand := by
  have hhit : (hitRequest db e now).1.round.id = db.round.id ∧
      (hitRequest db e now).1.round.seed = db.round.seed ∧
      (hitRequest db e now).1.walletBalance = db.walletBalance := by
    simp only [hitRequest]
    split
    · exact ⟨rfl, rfl, rfl⟩
    · split
      · exact ⟨rfl, rfl, rfl⟩
      · split
        · exact ⟨rfl, rfl, rfl⟩
        · exact ⟨rfl, rfl, rfl⟩
  have hstand : (standRequest db now).1.round.id = db.round.id ∧
      (standRequest db now).1.round.seed = db.round.seed ∧
      (standRequest db now).1.round.nonce = db.round.nonce ∧
      (standRequest db now).1.round.hand = db.round.hand := by
    simp only [standRequest, standTx]
    split
    · exact ⟨rfl, rfl, rfl, rfl⟩
    · split
      · exact ⟨rfl, rfl, rfl, rfl⟩
      · exact ⟨rfl, rfl, rfl, rfl⟩
  exact ⟨hhit.1, hhit.2.1, hhit.2.2, hstand.1, hstand.2.1, hstand.2.2.1, hstand.2.2.2⟩

/-! ## Branch equations for the hit handler -/

theorem hitRequest_conflict_state (db : Db) (e : Option Nat) (now : Nat)
    (h : db.round.state ≠ .PLAYING) :
    hitRequest db e now = (db, .conflict db.round) := by
  simp [hitRequest, h]

theorem hitRequest_conflict_nonce (db : Db) (e : Option Nat) (now : Nat)
    (hs : db.round.state = .PLAYING)
    (he : e.any (fun k => k != db.round.nonce) = true) :
    hitRequest db e now = (db, .conflict db.round) := by
  simp [hitRequest, hs, he]

theorem hitRequest_exhausted (db : Db) (e : Option Nat) (now : Nat)
    (hs : db.round.state = .PLAYING)
    (he : e.any (fun k => k != db.round.nonce) = false)
    (hp : pickNextCard (createShuffledDeck db.round.seed 0) db.round.hand
      db.round.nonce = none) :
    hitRequest db e now = (db, .deckExhausted) := by
  simp [hitRequest, hs, he, hp]

theorem hitRequest_ok (db : Db) (e : Option Nat) (now : Nat) (c : CardCode)
    (i : Nat) (hs : db.round.state = .PLAYING)
    (he : e.any (fun k => k != db.round.nonce) = false)
    (hp : pickNextCard (createShuffledDeck db.round.seed 0) db.round.hand
      db.round.nonce = some (c, i)) :
    hitRequest db e now = (hitSuccessDb db c now, .ok c) := by
  simp [hitRequest, hs, he, hp]

/-! ## The canonical draw rule (C2) -/

theorem getElem_not_mem_take {α : Type} (l : List α) (hnd : l.Nodup) (n : Nat)
    (hn : n < l.length) : l[n] ∉ l.take n := by
  intro hmem
  have hnd2 : (l.take n ++ l.drop n).Nodup := by
    rw [List.take_append_drop]
    exact hnd
  have hdisj := (List.nodup_append.mp hnd2).2.2
  have hdrop : l[n] ∈ l.drop n := by
    rw [List.drop_eq_getElem_cons hn]
    exact List.mem_cons_self _ _
  exact hdisj hmem hdrop

theorem pickNextCard_fresh (deck already : List CardCode) (idx : Nat)
    (hlt : idx < deck.length) (hfresh : deck[idx] ∉ already) :
    pickNextCard deck already idx = some (deck[idx], idx) := by
  unfold pickNextCard
  rw [List.getElem?_eq_getElem hlt]
  exact if_neg hfresh

/-- C2: on a consistent round (`nonce` cards drawn, hand = the first
`nonce` cards of the canonical deck `createShuffledDeck(seed, 0)`), a
hit deals exactly `deck[nonce]` (0-based, i.e. the k-th hit deals
`deck[k-1]`) and increments the nonce; and `initRound` with `dealOne`
deals `deck[0]` of the same canonical deck and sets `nonce = 1`. -/
theorem hit_deals_canonical (db : Db) (e : Option Nat) (now : Nat)
    (hstate : db.round.state = .PLAYING)
    (hn : db.round.nonce < 52)
    (hhand : db.round.hand =
      (createShuffledDeck db.round.seed 0).take db.round.nonce)
    (he : e = none ∨ e = some db.round.nonce) :
    (∃ c : CardCode,
      (createShuffledDeck db.round.seed 0)[db.round.nonce]? = some c ∧
      hitRequest db e now = (hitSuccessDb db c now, .ok c) ∧
      (hitRequest db e now).1.round.hand = db.round.hand ++ [c] ∧
      (hitRequest db e now).1.round.nonce = db.round.nonce + 1) ∧
    (∀ (roundId seed : String) (ts : Nat),
      ∃ (c : CardCode) (r : InitRoundResult),
        (createShuffledDeck seed 0)[(0 : Nat)]? = some c ∧
        initRound roundId seed none true ts = some r ∧
        r.hand = [c] ∧ r.nonce = 1) := by
  constructor
  · have hperm := createShuffledDeck_perm db.round.seed 0
    have hlen : (createShuffledDeck db.round.seed 0).length = 52 :=
      hperm.length_eq.trans buildDeck_length
    have hlt : db.round.nonce < (createShuffledDeck db.round.seed 0).length := by
      omega
    have hnd : (createShuffledDeck db.round.seed 0).Nodup :=
      hperm.nodup_iff.mpr buildDeck_nodup
    have hany : e.any (fun k => k != db.round.nonce) = false := by
      rcases he with rfl | rfl
      · rfl
      · simp
    have hnotmem : (createShuffledDeck db.round.seed 0)[db.round.nonce] ∉
        db.round.hand := by
      rw [hhand]
      exact getElem_not_mem_take _ hnd _ hlt
    have hpick : pickNextCard (createShuffledDeck db.round.seed 0)
        db.round.hand db.round.nonce =
        some ((createShuffledDeck db.round.seed 0)[db.round.nonce],
          db.round.nonce) :=
      pickNextCard_fresh _ _ _ hlt hnotmem
    have hok := hitRequest_ok db e now _ _ hstate hany hpick
    exact ⟨(createShuffledDeck db.round.seed 0)[db.round.nonce],
      List.getElem?_eq_getElem hlt, hok, by rw [hok]; rfl, by rw [hok]; rfl⟩
  · intro roundId seed ts
    have hperm := createShuffledDeck_perm seed 0
    have hlen : (createShuffledDeck seed 0).length = 52 :=
      hperm.length_eq.trans buildDeck_length
    cases hdeck : createShuffledDeck seed 0 with
    | nil => rw [hdeck] at hlen; simp at hlen
    | cons c rest =>
      refine ⟨c,
        { roundId := roundId, state := .Playing, seed := seed, nonce := 1,
          hand := [c], total := (calculateBestTotal [c]).total,
          deckLeft := rest,
          logs := [initStartLog roundId 0 ts,
                   { roundId := roundId, action := "hit", card := some c,
                     nonce := some 1,
                     totalAfter := some (calculateBestTotal [c]).total,
                     createdAt := ts }] },
        ?_, ?_, rfl, rfl⟩
      · simp
      · unfold initRound
        rw [show Option.getD (none : Option Nat) 0 = 0 from rfl, hdeck]
        rfl

theorem hit_deals_canonical_witness :
    ∃ c : CardCode,
      (createShuffledDeck "s1" 0)[(0 : Nat)]? = some c ∧
      hitRequest hitDb0 none 0 = (hitSuccessDb hitDb0 c 0, .ok c) ∧
      (hitRequest hitDb0 none 0).1.round.hand = hitDb0.round.hand ++ [c] ∧
      (hitRequest hitDb0 none 0).1.round.nonce = hitDb0.round.nonce + 1 :=
  (hit_deals_canonical hitDb0 none 0 rfl (by decide) (by simp [hitDb0])
    (Or.inl rfl)).1

/-! ## No duplicate deal, deck exhaustion (C7) -/

theorem scanProbe_some_spec (deck already : List CardCode) (a : Nat)
    (c : CardCode) (i : Nat) (h : scanProbe deck already a = some (c, i)) :
    c ∉ already ∧ deck[i]? = some c := by
  unfold scanProbe at h
  cases hd : deck[a]? with
  | none => rw [hd] at h; simp at h
  | some x =>
    rw [hd] at h
    by_cases hm : x ∈ already
    · simp [hm] at h
    · simp [hm] at h
      obtain ⟨hc, hi⟩ := h
      subst hc
      subst hi
      exact ⟨hm, hd⟩

theorem scanFrom_some_spec (deck already : List CardCode) (start : Nat)
    (c : CardCode) (i : Nat) (h : scanFrom deck already start = some (c, i)) :
    c ∉ already ∧ deck[i]? = some c := by
  unfold scanFrom at h
  obtain ⟨a, _, hfa⟩ := List.exists_of_findSome?_eq_some h
  exact scanProbe_some_spec deck already a c i hfa

theorem scanFrom_eq_none (deck already : List CardCode) (start : Nat)
    (hsub : ∀ c ∈ deck, c ∈ already) :
    scanFrom deck already start = none := by
  unfold scanFrom
  refine List.findSome?_eq_none_iff.mpr ?_
  intro a _
  unfold scanProbe
  cases hd : deck[a]? with
  | none => simp
  | some x =>
    have hx : x ∈ deck := by
      obtain ⟨hlt2, he2⟩ := List.getElem?_eq_some.mp hd
      exact he2 ▸ List.getElem_mem hlt2
    simp [hsub x hx]

theorem pickFallback_some_spec (deck already : List CardCode) (idx : Nat)
    (c : CardCode) (i : Nat) (h : pickFallback deck already idx = some (c, i)) :
    c ∉ already ∧ deck[i]? = some c := by
  unfold pickFallback at h
  cases hs1 : scanFrom deck already idx with
  | some res =>
    rw [hs1] at h
    simp at h
    subst h
    exact scanFrom_some_spec deck already idx c i hs1
  | none =>
    rw [hs1] at h
    simp at h
    exact scanFrom_some_spec deck already 0 c i h

theorem pickFallback_eq_none (deck already : List CardCode) (idx : Nat)
    (hsub : ∀ c ∈ deck, c ∈ already) :
    pickFallback deck already idx = none := by
  unfold pickFallback
  rw [scanFrom_eq_none deck already idx hsub]
  exact scanFrom_eq_none deck already 0 hsub

theorem pickNextCard_some_spec (deck already : List CardCode) (idx : Nat)
    (c : CardCode) (i : Nat) (h : pickNextCard deck already idx = some (c, i)) :
    c ∉ already ∧ deck[i]? = some c := by
  unfold pickNextCard at h
  cases hd : deck[idx]? with
  | none =>
    rw [hd] at h
    exact pickFallback_some_spec deck already idx c i h
  | some x =>
    rw [hd] at h
    by_cases hm : x ∈ already
    · simp only [hm, if_true] at h
      exact pickFallback_some_spec deck already idx c i h
    · simp [hm] at h
      obtain ⟨hc, hi⟩ := h
      subst hc
      subst hi
      exact ⟨hm, hd⟩

theorem pickNextCard_eq_none (deck already : List CardCode) (idx : Nat)
    (hsub : ∀ c ∈ deck, c ∈ already) :
    pickNextCard deck already idx = none := by
  unfold pickNextCard
  cases hd : deck[idx]? with
  | none => simp [pickFallback_eq_none deck already idx hsub]
  | some x =>
    have hx : x ∈ deck := by
      obtain ⟨hlt2, he2⟩ := List.getElem?_eq_some.mp hd
      exact he2 ▸ List.getElem_mem hlt2
    simp [hsub x hx, pickFallback_eq_none deck already idx hsub]

/-- C7: a successful hit never deals a card already in the hand — the
appended card is fresh on every success path, including the defensive
forward/wraparound scans — and when the hand already holds every card
of the canonical deck the handler answers `deckExhausted` leaving the
database untouched. -/
theorem hit_no_duplicate_spec (db : Db) (e : Option Nat) (now : Nat) :
    (∀ (dbr : Db) (c : CardCode), hitRequest db e now = (dbr, .ok c) →
      c ∉ db.round.hand ∧ dbr.round.hand = db.round.hand ++ [c]) ∧
    (db.round.state = .PLAYING →
      (∀ c ∈ createShuffledDeck db.round.seed 0, c ∈ db.round.hand) →
      hitRequest db none now = (db, .deckExhausted)) := by
  constructor
  · intro dbr c h
    by_cases h1 : db.round.state = .PLAYING
    · cases hany : e.any (fun k => k != db.round.nonce) with
      | true =>
        rw [hitRequest_conflict_nonce db e now h1 hany] at h
        exact absurd (congrArg Prod.snd h) (by simp)
      | false =>
        cases hp : pickNextCard (createShuffledDeck db.round.seed 0)
            db.round.hand db.round.nonce with
        | none =>
          rw [hitRequest_exhausted db e now h1 hany hp] at h
          exact absurd (congrArg Prod.snd h) (by simp)
        | some res =>
          obtain ⟨cc, ii⟩ := res
          rw [hitRequest_ok db e now cc ii h1 hany hp] at h
          have hc : cc = c := by
            have h2 := congrArg Prod.snd h
            simpa using h2
          subst hc
          have hdb : dbr = hitSuccessDb db cc now := (congrArg Prod.fst h).symm
          refine ⟨(pickNextCard_some_spec _ _ _ _ _ hp).1, ?_⟩
          rw [hdb]
          rfl
    · rw [hitRequest_conflict_state db e now h1] at h
      exact absurd (congrArg Prod.snd h) (by simp)
  · intro hs hsub
    exact hitRequest_exhausted db none now hs rfl
      (pickNextCard_eq_none _ _ _ hsub)

theorem hit_no_duplicate_spec_witness :
    hitRequest fullHandDb none 0 = (fullHandDb, .deckExhausted) :=
  (hit_no_duplicate_spec fullHandDb none 0).2 rfl (fun _ hc => hc)

/-! ## The string hash is not reference FNV-1a-32 (C8) -/

/-- C8 (refuted on the code): the source's `fnv1a32` multiplies with a
plain double `*` instead of `Math.imul`, so products beyond 2^53 lose
their low bits to rounding; on seed `"s1"` it returns `0x0651b5a0`
while reference FNV-1a-32 with 32-bit-wrapped arithmetic
(`fnv1a32Reference`) returns `0x0851b8c9`.  The nonce mixing in
`createSeededRng` does XOR the hash with the 32-bit nonce as claimed. -/
theorem fnv1a32_not_reference :
    fnv1a32 "s1" = 106018208 ∧
    fnv1a32Reference "s1" = 139573449 ∧
    fnv1a32 "s1" ≠ fnv1a32Reference "s1" ∧
    (∀ (seed : String) (nonce : Nat),
      createSeededRngState seed nonce = (fnv1a32 seed ^^^ (nonce % M32)) % M32) :=
  ⟨by decide, by decide, by decide, fun _ _ => rfl⟩

/-! ## Remaining witnesses -/

theorem stand_spec_witness :
    (standRequest raceDb 5).1.round.state = .FINISHED ∧
    (∀ b p : Int, b ≤ updateBalance b p) :=
  ⟨(stand_spec raceDb 5 rfl).2.1, (stand_spec raceDb 5 rfl).2.2.2.2.2.2⟩

theorem stand_race_spec_witness :
    standTx raceDb raceDb.round.id raceDb.round.nonce (standView raceDb.round).1
        (standView raceDb.round).2 1 = (standSuccessDb raceDb 1, true) ∧
    standTx (standSuccessDb raceDb 1) raceDb.round.id raceDb.round.nonce
        (standView raceDb.round).1 (standView raceDb.round).2 2
      = (standSuccessDb raceDb 1, false) :=
  ⟨(stand_race_spec raceDb 1 2 rfl).1, (stand_race_spec raceDb 1 2 rfl).2.1⟩

end Blackjack
